import Mathlib

/-!
# Verification of the CENI-RJ data-acquisition layer

Shallow embedding of the CSV parser and the two cached fetch clients of the
CENI-RJ repository:

* `src/ceni-repositorio-dinamico.js` — `SheetsCSV.parseCSVLine`,
  `SheetsCSV.parseCSV`, `CacheManager.get`, `SheetsCSV.fetchSheet`;
* `src/ceni-dynamic-data.js` — `LocalCache.get`/`set`,
  `CENIApiClient.fetch` (retry with exponential backoff).

Times are naturals (milliseconds since epoch); the browser's `localStorage`
is modelled as an association list from string keys to
`(timestamp, data)` pairs (the JSON serialization round-trip of
`localStorage` is the identity on the modelled values and is elided; the
`try`/`catch` storage-unavailable branches are outside the claims
considered here).  Network effects are modelled by an oracle giving the
outcome of each HTTP attempt.
-/

/-! ## JS string helpers -/

/-- Whitespace as recognised by `String.prototype.trim` (restricted to the
ASCII whitespace characters that can occur in the inputs considered). -/
def wsChar (c : Char) : Bool :=
  c = ' ' || c = '\t' || c = '\r' || c = '\n'

/-- `trim` on character lists: drop leading and trailing whitespace. -/
def trimCs (cs : List Char) : List Char :=
  ((cs.dropWhile wsChar).reverse.dropWhile wsChar).reverse

/-- `s.trim()` producing a `String` from a character list. -/
def strTrim (cs : List Char) : String :=
  String.mk (trimCs cs)

/-- `text.split('\n')` on character lists, with the accumulated current
segment: every `'\n'` separates segments, and the final segment is always
emitted (JS `split` yields `[""]` on the empty string). -/
def splitNLAux : List Char → List Char → List String
  | [], acc => [String.mk acc]
  | c :: rest, acc =>
    if c = '\n' then String.mk acc :: splitNLAux rest []
    else splitNLAux rest (acc ++ [c])

/-- `csvText.split('\n')`. -/
def jsSplitLines (s : String) : List String :=
  splitNLAux s.data []

/-! ## CSV line parsing (`SheetsCSV.parseCSVLine`)

The source scans the line left to right with an index `i`, a `current`
accumulator and an `inQuotes` flag:

* `'"'` while `inQuotes` with next char also `'"'`: emit one literal quote,
  skip both characters;
* `'"'` otherwise: toggle `inQuotes`;
* `','` outside quotes: push `current.trim()`, start a new field;
* any other character (including `','` inside quotes): append to `current`;
* at end of line, push the final `current.trim()` regardless of state.
-/

/-- The scan loop of `SheetsCSV.parseCSVLine`: remaining characters,
`current` accumulator, `inQuotes` flag. -/
def lineScan : List Char → List Char → Bool → List String
  | [], current, _ => [strTrim current]
  | '"' :: '"' :: rest, current, true => lineScan rest (current ++ ['"']) true
  | '"' :: rest, current, true => lineScan rest current false
  | '"' :: rest, current, false => lineScan rest current true
  | ',' :: rest, current, true => lineScan rest (current ++ [',']) true
  | ',' :: rest, current, false => strTrim current :: lineScan rest [] false
  | c :: rest, current, q => lineScan rest (current ++ [c]) q

/-- `SheetsCSV.parseCSVLine(line)`. -/
def parseCSVLine (line : String) : List String :=
  lineScan line.data [] false

/-! ## CSV document parsing (`SheetsCSV.parseCSV`) -/

/-- One parsed record: the JS object built from one data row, as an
insertion-ordered association list. -/
abbrev CsvRecord := List (String × String)

/-- JS object property assignment `obj[k] = v`: overwrite in place if the
key is present, else append (insertion order). -/
def objSet : List (String × String) → String → String → List (String × String)
  | [], k, v => [(k, v)]
  | (k0, v0) :: rest, k, v =>
    if k0 = k then (k0, v) :: rest else (k0, v0) :: objSet rest k v

/-- `values[index] || ''`: out-of-range indexing yields `undefined`, and
both `undefined` and the (falsy) empty string are replaced by `''`. -/
def jsOrEmpty : Option String → String
  | none => ""
  | some s => if s = "" then "" else s

/-- The record-building loop of `parseCSV`:
`headers.forEach((header, index) => { obj[header] = values[index] || ''; })`. -/
def mkRecord (headers values : List String) : CsvRecord :=
  headers.enum.foldl (fun obj hi => objSet obj hi.2 (jsOrEmpty (values.get? hi.1))) []

/-- The non-empty lines of the input:
`csvText.split('\n').filter(line => line.trim().length > 0)`.  The filter
keeps the original (untrimmed) lines. -/
def nonEmptyLines (csvText : String) : List String :=
  (jsSplitLines csvText).filter (fun l => (strTrim l.data).length > 0)

/-- The body of `parseCSV` after line splitting: fewer than two surviving
lines yield `[]`; otherwise the first line is the header and each further
line becomes one record. -/
def parseRows (lines : List String) : List CsvRecord :=
  if lines.length < 2 then []
  else
    (lines.drop 1).map (fun line =>
      mkRecord (parseCSVLine (lines.getD 0 "")) (parseCSVLine line))

/-- `SheetsCSV.parseCSV(csvText)`. -/
def parseCSV (csvText : String) : List CsvRecord :=
  parseRows (nonEmptyLines csvText)

/-! ## The local cache stores -/

/-- The `localStorage`-backed cache of either file: an association list
from keys to `(timestamp, data)` entries.  Keys are unique because writes
go through `storeInsert`. -/
abbrev Store (α : Type) := List (String × Nat × α)

/-- `localStorage.getItem`: the entry stored under a key, if any. -/
def storeLookup {α : Type} : Store α → String → Option (Nat × α)
  | [], _ => none
  | (k0, e) :: rest, k => if k0 = k then some e else storeLookup rest k

/-- `localStorage.removeItem`. -/
def storeRemove {α : Type} : Store α → String → Store α
  | [], _ => []
  | (k0, e) :: rest, k => if k0 = k then rest else (k0, e) :: storeRemove rest k

/-- `localStorage.setItem`: overwrite the entry in place if the key is
present, else append. -/
def storeInsert {α : Type} : Store α → String → Nat × α → Store α
  | [], k, e => [(k, e)]
  | (k0, e0) :: rest, k, e =>
    if k0 = k then (k0, e) :: rest else (k0, e0) :: storeInsert rest k e

/-- `LocalCache.get` of `ceni-dynamic-data.js` (parametrised by the
configured duration, `API_CONFIG.CACHE_DURATION` in the source): with
`age = Date.now() - timestamp`, the entry is returned while
`age < CACHE_DURATION`; otherwise it is removed and `null` is returned.
Returns the read result together with the store after the read. -/
def localCacheGet {α : Type} (dur : Nat) (st : Store α) (now : Nat) (key : String) :
    Option α × Store α :=
  match storeLookup st key with
  | none => (none, st)
  | some (ts, data) =>
    if now - ts < dur then (some data, st) else (none, storeRemove st key)

/-- `LocalCache.set` (and `CacheManager.set`): store the data with the
current timestamp. -/
def localCacheSet {α : Type} (st : Store α) (now : Nat) (key : String) (data : α) :
    Store α :=
  storeInsert st key (now, data)

/-- `CacheManager.get` of `ceni-repositorio-dinamico.js` (parametrised by
`CONFIG.CACHE_DURATION`): the entry is expired when
`Date.now() - timestamp > CACHE_DURATION`; an expired entry is removed and
`null` returned, otherwise the data is returned. -/
def cacheManagerGet {α : Type} (dur : Nat) (st : Store α) (now : Nat) (key : String) :
    Option α × Store α :=
  match storeLookup st key with
  | none => (none, st)
  | some (ts, data) =>
    if now - ts > dur then (none, storeRemove st key) else (some data, st)

/-! ## JSON values and truthiness -/

/-- JSON values as delivered by `response.json()`. -/
inductive JSValue where
  | null : JSValue
  | bool : Bool → JSValue
  | num : Int → JSValue
  | str : String → JSValue
  | arr : List JSValue → JSValue
  | obj : List (String × JSValue) → JSValue

/-- JS truthiness of a value: `null`, `false`, `0` and `""` are falsy;
arrays and objects are always truthy. -/
def truthy : JSValue → Bool
  | .null => false
  | .bool b => b
  | .num n => n != 0
  | .str s => s != ""
  | .arr _ => true
  | .obj _ => true

/-- Truthiness of the result of a cache read (`null` is falsy). -/
def truthyOpt : Option JSValue → Bool
  | none => false
  | some v => truthy v

/-- Property lookup on a JSON object's field list. -/
def lookupField : List (String × JSValue) → String → Option JSValue
  | [], _ => none
  | (k0, v) :: rest, k => if k0 = k then some v else lookupField rest k

/-! ## The JSON client (`CENIApiClient.fetch`) -/

/-- The failures a single fetch attempt can raise. -/
inductive FetchError where
  | net : String → FetchError
  | http : Nat → String → FetchError
  | payload : JSValue → FetchError
  | nullData : FetchError

/-- The outcome of one HTTP attempt as seen by the client: either the
`fetch` promise rejects, or a response arrives with its `ok` flag, status,
status text, and the result of `response.json()` (which can itself
reject). -/
inductive NetOutcome where
  | netError : String → NetOutcome
  | response : Bool → Nat → String → Except String JSValue → NetOutcome

/-- One attempt of `CENIApiClient.fetch` after a cache miss, up to but not
including the retry logic:

* a rejected `fetch` or a rejected `response.json()` is a network error;
* `!response.ok` throws `HTTP <status>: <statusText>`;
* `data.error` on `null` data throws a `TypeError`;
* a truthy `data.error` field throws `new Error(data.error)`;
* otherwise the attempt succeeds with `data`. -/
def attemptResult : NetOutcome → Except FetchError JSValue
  | .netError m => .error (.net m)
  | .response ok status statusText body =>
    if ok = false then .error (.http status statusText)
    else
      match body with
      | .error m => .error (.net m)
      | .ok data =>
        match data with
        | .null => .error .nullData
        | .obj fields =>
          match lookupField fields "error" with
          | some e => if truthy e then .error (.payload e) else .ok (.obj fields)
          | none => .ok (.obj fields)
        | d => .ok d

/-- `API_CONFIG` of `ceni-dynamic-data.js`. -/
structure ApiConfig where
  cacheDuration : Nat
  retryAttempts : Nat
  retryDelay : Nat

/-- The configured values: 30 minutes of cache, 3 attempts, 1000 ms base
delay. -/
def API_CONFIG : ApiConfig := ⟨1800000, 3, 1000⟩

/-- Everything observable about one call of `CENIApiClient.fetch`: the
settled result, the cache store afterwards, the attempt numbers at which a
network request was issued, and the backoff delays awaited. -/
structure FetchTrace where
  result : Except FetchError JSValue
  store : Store JSValue
  requests : List Nat
  delays : List Nat

/-- The body of `CENIApiClient.fetch(endpoint, params, attempt)`, keyed by
the already-computed cache key.  `fuel` bounds the recursion depth; it is
an upper bound on the number of remaining attempts and the `fuel = 0`
branch is unreachable from `clientFetch`, which supplies
`fuel = retryAttempts` at `attempt = 1` (the retry guard
`attempt < retryAttempts` keeps `fuel` positive at every recursive call).

The body mirrors the source: re-read the cache (the recursive call re-runs
the whole function, so each retry re-checks the cache), return a truthy
cached value immediately; otherwise perform the attempt, store and return
its data on success, and on failure wait `retryDelay * 2 ^ (attempt - 1)`
and retry while `attempt < retryAttempts`, rethrowing the last error once
attempts are exhausted. -/
def fetchGo (cfg : ApiConfig) (oracle : Nat → NetOutcome) (key : String) :
    Nat → Store JSValue → Nat → Nat → FetchTrace
  | fuel, st, now, attempt =>
    let p := localCacheGet cfg.cacheDuration st now key
    if truthyOpt p.1 then
      ⟨.ok (p.1.getD .null), p.2, [], []⟩
    else
      match attemptResult (oracle attempt) with
      | .ok data => ⟨.ok data, localCacheSet p.2 now key data, [attempt], []⟩
      | .error e =>
        if attempt < cfg.retryAttempts then
          match fuel with
          | fuel0 + 1 =>
            let d := cfg.retryDelay * 2 ^ (attempt - 1)
            let rest := fetchGo cfg oracle key fuel0 p.2 (now + d) (attempt + 1)
            ⟨rest.result, rest.store, attempt :: rest.requests, d :: rest.delays⟩
          | 0 => ⟨.error e, p.2, [attempt], []⟩
        else ⟨.error e, p.2, [attempt], []⟩

/-- `CENIApiClient.fetch(endpoint, params)`: the call starts at
`attempt = 1`. -/
def clientFetch (cfg : ApiConfig) (oracle : Nat → NetOutcome) (st : Store JSValue)
    (now : Nat) (key : String) : FetchTrace :=
  fetchGo cfg oracle key cfg.retryAttempts st now 1

/-! ## The CSV client (`SheetsCSV.fetchSheet`) -/

/-- `CONFIG.CACHE_DURATION` of `ceni-repositorio-dinamico.js`:
5 minutes. -/
def CONFIG_CACHE_DURATION : Nat := 300000

/-- The outcome of the single HTTP attempt of `fetchSheet`: a rejected
`fetch`, or a response with its `ok` flag, status, status text and body
text. -/
inductive CsvNetOutcome where
  | netError : String → CsvNetOutcome
  | response : Bool → Nat → String → String → CsvNetOutcome

/-- Everything observable about one call of `SheetsCSV.fetchSheet`. -/
structure CsvTrace where
  result : Except FetchError (List CsvRecord)
  store : Store (List CsvRecord)
  requests : Nat
  delays : List Nat

/-- `SheetsCSV.fetchSheet(gid)`: return a cached value if present (the
stored values are arrays, which are always truthy); otherwise perform one
HTTP request — a rejection or a non-ok status propagates as an error with
no retry — and parse the body, returning `[]` without caching when the
body or the parse result is empty, and caching the parsed records
otherwise. -/
def fetchSheet (st : Store (List CsvRecord)) (now : Nat) (gid : String)
    (net : CsvNetOutcome) : CsvTrace :=
  let p := cacheManagerGet CONFIG_CACHE_DURATION st now gid
  match p.1 with
  | some cachedData => ⟨.ok cachedData, p.2, 0, []⟩
  | none =>
    match net with
    | .netError m => ⟨.error (.net m), p.2, 1, []⟩
    | .response ok status statusText body =>
      if ok = false then ⟨.error (.http status statusText), p.2, 1, []⟩
      else if (strTrim body.data).length = 0 then ⟨.ok [], p.2, 1, []⟩
      else
        let parsedData := parseCSV body
        if parsedData.length = 0 then ⟨.ok [], p.2, 1, []⟩
        else ⟨.ok parsedData, localCacheSet p.2 now gid parsedData, 1, []⟩

/-! ## Helper lemmas on trimming -/

theorem dropWhile_self (p : Char → Bool) (xs : List Char) :
    (xs.dropWhile p).dropWhile p = xs.dropWhile p := by
  induction xs with
  | nil => rfl
  | cons c cs ih =>
    by_cases h : p c
    · simp [List.dropWhile_cons, h, ih]
    · simp [List.dropWhile_cons, h]

theorem head_dropWhile_false (p : Char → Bool) : ∀ (xs : List Char) (c : Char),
    (xs.dropWhile p).head? = some c → p c = false := by
  intro xs
  induction xs with
  | nil => intro c h; simp [List.dropWhile] at h
  | cons a as ih =>
    intro c h
    by_cases hp : p a
    · rw [List.dropWhile_cons_of_pos hp] at h; exact ih c h
    · rw [List.dropWhile_cons_of_neg hp] at h
      simp at h
      subst h
      simpa using hp

theorem dropWhile_eq_self_of_head (p : Char → Bool) (xs : List Char) (c : Char)
    (h1 : xs.head? = some c) (h2 : p c = false) : xs.dropWhile p = xs := by
  cases xs with
  | nil => rfl
  | cons a as =>
    simp at h1
    subst h1
    simp [List.dropWhile_cons, h2]

/-- A trimmed character list has no leading whitespace. -/
theorem trimCs_no_lead (cs : List Char) :
    (trimCs cs).dropWhile wsChar = trimCs cs := by
  unfold trimCs
  set X := cs.dropWhile wsChar with hX
  set Z := X.reverse.dropWhile wsChar with hZ
  cases hz : Z with
  | nil => simp [hz]
  | cons z zs =>
    obtain ⟨t, ht⟩ := (List.dropWhile_suffix wsChar : Z <:+ X.reverse)
    have hzne : Z ≠ [] := by simp [hz]
    have h1 : Z.getLast? = X.reverse.getLast? := by
      rw [← ht]
      exact (List.getLast?_append_of_ne_nil t hzne).symm
    have h2 : X.reverse.getLast? = X.head? := List.getLast?_reverse X
    have h3 : Z.reverse.head? = Z.getLast? := List.head?_reverse Z
    obtain ⟨c, hc⟩ : ∃ c, Z.getLast? = some c := by
      cases hg : Z.getLast? with
      | none => rw [List.getLast?_eq_none_iff] at hg; exact absurd hg hzne
      | some c => exact ⟨c, rfl⟩
    have hcX : X.head? = some c := by rw [← h2, ← h1, hc]
    have hcw : wsChar c = false := head_dropWhile_false wsChar cs c (by rw [← hX]; exact hcX)
    rw [← hz]
    exact dropWhile_eq_self_of_head wsChar Z.reverse c (by rw [h3, hc]) hcw

/-- A trimmed character list has no trailing whitespace. -/
theorem trimCs_no_trail (cs : List Char) :
    (trimCs cs).reverse.dropWhile wsChar = (trimCs cs).reverse := by
  unfold trimCs
  rw [List.reverse_reverse]
  exact dropWhile_self wsChar _

/-! ## Helper lemmas on the line scan -/

theorem lineScan_quote_close (rest current : List Char)
    (h : ∀ r : List Char, rest ≠ '"' :: r) :
    lineScan ('"' :: rest) current true = lineScan rest current false := by
  cases rest with
  | nil => rfl
  | cons c r =>
    have hc : c ≠ '"' := fun hc => h r (by rw [hc])
    simp [lineScan, hc]

theorem lineScan_quote_open (rest current : List Char) :
    lineScan ('"' :: rest) current false = lineScan rest current true := by
  cases rest with
  | nil => rfl
  | cons c r =>
    by_cases hc : c = '"' <;> simp [lineScan, hc]

theorem lineScan_other (c : Char) (rest current : List Char) (q : Bool)
    (hc1 : c ≠ '"') (hc2 : c ≠ ',') :
    lineScan (c :: rest) current q = lineScan rest (current ++ [c]) q := by
  cases q <;> simp [lineScan, hc1, hc2]

/-- Every field emitted by the scan loop is the trim of some character
list, and at least one field (the final one) is always emitted. -/
theorem lineScan_fields : ∀ (cs current : List Char) (q : Bool),
    1 ≤ (lineScan cs current q).length ∧
      ∀ f ∈ lineScan cs current q, ∃ g, f = strTrim g := by
  intro cs current q
  induction cs, current, q using lineScan.induct with
  | case1 current q =>
    refine ⟨by simp [lineScan], ?_⟩
    intro f hf
    simp [lineScan] at hf
    exact ⟨current, hf⟩
  | case2 rest current ih =>
    simpa [lineScan] using ih
  | case3 rest current hne ih =>
    rwa [lineScan_quote_close rest current (fun r hr => hne r hr)]
  | case4 rest current ih =>
    rwa [lineScan_quote_open rest current]
  | case5 rest current ih =>
    simpa [lineScan] using ih
  | case6 rest current ih =>
    have heq : lineScan (',' :: rest) current false =
        strTrim current :: lineScan rest [] false := rfl
    rw [heq]
    refine ⟨by simp, ?_⟩
    intro f hf
    rcases List.mem_cons.mp hf with h | h
    · exact ⟨current, h⟩
    · exact ih.2 f h
  | case7 c rest current q h1 h2 h3 h4 h5 ih =>
    have hc1 : c ≠ '"' := by
      intro hc
      cases q with
      | false => exact h3 hc rfl
      | true => exact h2 hc rfl
    have hc2 : c ≠ ',' := by
      intro hc
      cases q with
      | false => exact h5 hc rfl
      | true => exact h4 hc rfl
    rwa [lineScan_other c rest current q hc1 hc2]

/-- C9: line-level field parsing is total: for every input line at least
one field (the final accumulated one) is emitted, every emitted field is
trimmed of surrounding whitespace (no leading and no trailing whitespace
characters), and in particular lines with unterminated quotes parse
without error, the dangling quote merely toggling the state. -/
theorem parseCSVLine_total_trimmed :
    (∀ line : String, 1 ≤ (parseCSVLine line).length)
    ∧ (∀ line f : String, f ∈ parseCSVLine line →
        f.data.dropWhile wsChar = f.data ∧
          f.data.reverse.dropWhile wsChar = f.data.reverse)
    ∧ parseCSVLine " \"ab " = ["ab"]
    ∧ parseCSVLine "\"x,y" = ["x,y"] := by
  refine ⟨?_, ?_, by decide, by decide⟩
  · intro line
    exact (lineScan_fields line.data [] false).1
  · intro line f hf
    obtain ⟨g, hg⟩ := (lineScan_fields line.data [] false).2 f hf
    subst hg
    exact ⟨trimCs_no_lead g, trimCs_no_trail g⟩

/-- Witness for C9: on the concrete line `" a "` the single emitted field
`"a"` carries no surrounding whitespace. -/
theorem parseCSVLine_total_trimmed_witness :
    "a".data.dropWhile wsChar = "a".data ∧
      "a".data.reverse.dropWhile wsChar = "a".data.reverse :=
  parseCSVLine_total_trimmed.2.1 " a " "a" (by decide)

/-- C6: during the line scan a comma inside quotes is appended to the
current field as a literal character, a comma outside quotes terminates
the current field (trimmed) and starts a new one, and in particular the
line `"a,b"` parses as the single field `a,b`. -/
theorem comma_field_separation :
    (∀ rest current : List Char,
        lineScan (',' :: rest) current true = lineScan rest (current ++ [',']) true)
    ∧ (∀ rest current : List Char,
        lineScan (',' :: rest) current false =
          strTrim current :: lineScan rest [] false)
    ∧ parseCSVLine "\"a,b\"" = ["a,b"] :=
  ⟨fun _ _ => rfl, fun _ _ => rfl, by decide⟩

/-- C7: a quote character toggles the inside-quotes state, except that a
quote pair seen while inside quotes is emitted as one literal quote with
both characters consumed; in particular `"a""b"` parses as `a"b`. -/
theorem quote_toggle_escape :
    (∀ rest current : List Char,
        lineScan ('"' :: '"' :: rest) current true =
          lineScan rest (current ++ ['"']) true)
    ∧ (∀ rest current : List Char,
        lineScan ('"' :: rest) current false = lineScan rest current true)
    ∧ (∀ (c : Char) (rest current : List Char), c ≠ '"' →
        lineScan ('"' :: c :: rest) current true = lineScan (c :: rest) current false)
    ∧ (∀ current : List Char, lineScan ['"'] current true = lineScan [] current false)
    ∧ parseCSVLine "\"a\"\"b\"" = ["a\"b"] := by
  refine ⟨fun _ _ => rfl, lineScan_quote_open, ?_, fun _ => rfl, by decide⟩
  intro c rest current hc
  simp [lineScan, hc]

/-- Witness for C7: the toggle-off step at the concrete character `x`. -/
theorem quote_toggle_escape_witness :
    lineScan ['"', 'x'] [] true = lineScan ['x'] [] false :=
  quote_toggle_escape.2.2.1 'x' [] [] (by decide)

/-! ## Helper lemmas on line splitting -/

theorem splitNLAux_append_nl : ∀ (xs acc ys : List Char), '\n' ∉ xs →
    splitNLAux (xs ++ '\n' :: ys) acc = String.mk (acc ++ xs) :: splitNLAux ys [] := by
  intro xs
  induction xs with
  | nil => intro acc ys _; simp [splitNLAux]
  | cons c cs ih =>
    intro acc ys hmem
    have hc : ¬c = '\n' := fun h => hmem (by rw [h]; exact List.mem_cons_self _ _)
    have hcs : '\n' ∉ cs := fun h => hmem (List.mem_cons_of_mem c h)
    simp only [List.cons_append, splitNLAux, if_neg hc]
    change splitNLAux (cs ++ '\n' :: ys) (acc ++ [c]) = _
    rw [ih (acc ++ [c]) ys hcs, List.append_assoc]
    rfl

theorem string_mk_data (l : String) : String.mk l.data = l := rfl

/-- C8: `parseCSV` drops lines that are blank after trimming, returns `[]`
whenever fewer than two non-empty lines remain, and in particular a
header-only input yields `[]`. -/
theorem parseCSV_line_filtering :
    (∀ l t : String, '\n' ∉ l.data → (strTrim l.data).length = 0 →
        parseCSV (l ++ "\n" ++ t) = parseCSV t)
    ∧ (∀ t : String, (nonEmptyLines t).length < 2 → parseCSV t = [])
    ∧ parseCSV "col1,col2" = [] := by
  refine ⟨?_, ?_, by decide⟩
  · intro l t hnl htrim
    have hdata : (l ++ "\n" ++ t).data = l.data ++ '\n' :: t.data := by
      simp [String.data_append]
    have hsplit : jsSplitLines (l ++ "\n" ++ t) = l :: jsSplitLines t := by
      unfold jsSplitLines
      rw [hdata, splitNLAux_append_nl l.data [] t.data hnl]
      simp [string_mk_data]
    unfold parseCSV nonEmptyLines
    rw [hsplit, List.filter_cons]
    simp [htrim]
  · intro t hlt
    unfold parseCSV parseRows
    rw [if_pos hlt]

/-- Witness for C8: prepending a whitespace-only line leaves the parse
unchanged on a concrete input. -/
theorem parseCSV_line_filtering_witness :
    parseCSV (" " ++ "\n" ++ "a,b\nc") = parseCSV "a,b\nc" :=
  parseCSV_line_filtering.1 " " "a,b\nc" (by decide) (by decide)

/-! ## Helper lemmas on record construction -/

theorem jsOrEmpty_eq_getD (o : Option String) : jsOrEmpty o = o.getD "" := by
  cases o with
  | none => rfl
  | some s =>
    by_cases h : s = ""
    · simp [jsOrEmpty, h]
    · simp [jsOrEmpty, h]

theorem objSet_append_of_not_mem (k : String) (v : String) :
    ∀ obj : List (String × String), k ∉ obj.map Prod.fst →
      objSet obj k v = obj ++ [(k, v)] := by
  intro obj
  induction obj with
  | nil => intro _; rfl
  | cons p rest ih =>
    intro h
    simp at h
    obtain ⟨h1, h2⟩ := h
    have hne : ¬p.1 = k := fun he => h1 (he.symm)
    calc objSet (p :: rest) k v = p :: objSet rest k v := by
          cases p with
          | mk k0 v0 => simp [objSet, hne]
      _ = p :: (rest ++ [(k, v)]) := by rw [ih (by simpa using h2)]
      _ = (p :: rest) ++ [(k, v)] := rfl

theorem foldl_objSet_nodup (f : Nat × String → String) :
    ∀ (l : List (Nat × String)) (obj : List (String × String)),
      (l.map Prod.snd).Nodup → (∀ p ∈ l, p.2 ∉ obj.map Prod.fst) →
      l.foldl (fun o p => objSet o p.2 (f p)) obj =
        obj ++ l.map (fun p => (p.2, f p)) := by
  intro l
  induction l with
  | nil => intro obj _ _; simp
  | cons p rest ih =>
    intro obj hnodup hmem
    have hnd : (Prod.snd p :: rest.map Prod.snd).Nodup := by
      rw [← List.map_cons]; exact hnodup
    have hhead := (List.nodup_cons.mp hnd).1
    have htail := (List.nodup_cons.mp hnd).2
    simp only [List.foldl_cons]
    rw [objSet_append_of_not_mem p.2 (f p) obj (hmem p (List.mem_cons_self _ _))]
    rw [ih (obj ++ [(p.2, f p)]) htail]
    · simp
    · intro q hq
      simp only [List.map_append, List.mem_append]
      rintro (hin | hin)
      · exact hmem q (List.mem_cons_of_mem p hq) hin
      · simp at hin
        have hneq : q.2 ≠ p.2 := by
          intro he
          exact hhead (he ▸ List.mem_map_of_mem Prod.snd hq)
        exact hneq hin

/-- The record built by the header loop, when the header names are
pairwise distinct: one pair per header, in header order, whose value is
the field at the header's index or `""` when the row is short. -/
theorem mkRecord_eq_of_nodup (headers values : List String) (h : headers.Nodup) :
    mkRecord headers values =
      headers.enum.map (fun hi => (hi.2, (values.getD hi.1 ""))) := by
  unfold mkRecord
  rw [foldl_objSet_nodup (fun p => jsOrEmpty (values.get? p.1)) headers.enum []
      (by rw [List.enum_map_snd]; exact h) (by simp)]
  simp only [List.nil_append]
  apply List.map_congr_left
  intro p _
  rw [jsOrEmpty_eq_getD]
  rfl

/-- C1 (counterexample): for the input `"a,a\n1,2"` the non-empty lines
are a header plus one data line and the header columns are `["a", "a"]`,
but the single record is `[("a", "2")]`: its keys are not the header
columns in header order (the duplicate key is collapsed by the JS object)
and its value for the column at index 0 is the field at index 1, not the
field at index 0. -/
theorem parseCSV_duplicate_header_cex :
    parseCSVLine "a,a" = ["a", "a"] ∧ parseCSV "a,a\n1,2" = [[("a", "2")]] :=
  ⟨by decide, by decide⟩

/-- C1 (amended): for every CSV input whose non-empty lines comprise a
header line plus at least one data line, provided the header columns are
pairwise distinct, `parseCSV` returns exactly one record per data line;
each record pairs the header columns, in header order, with the field of
the data line at the column's index, or `""` when the line has fewer
fields than the header. -/
theorem parseCSV_records_of_nodup (csvText : String)
    (hlen : 2 ≤ (nonEmptyLines csvText).length)
    (hnodup : (parseCSVLine ((nonEmptyLines csvText).getD 0 "")).Nodup) :
    parseCSV csvText =
      ((nonEmptyLines csvText).drop 1).map (fun line =>
        (parseCSVLine ((nonEmptyLines csvText).getD 0 "")).enum.map
          (fun hi => (hi.2, (parseCSVLine line).getD hi.1 ""))) := by
  unfold parseCSV parseRows
  rw [if_neg (by omega)]
  apply List.map_congr_left
  intro line _
  exact mkRecord_eq_of_nodup _ (parseCSVLine line) hnodup

/-- Witness for C1 (amended) at the concrete input `"a,b\n1"`. -/
theorem parseCSV_records_of_nodup_witness :
    parseCSV "a,b\n1" =
      ((nonEmptyLines "a,b\n1").drop 1).map (fun line =>
        (parseCSVLine ((nonEmptyLines "a,b\n1").getD 0 "")).enum.map
          (fun hi => (hi.2, (parseCSVLine line).getD hi.1 ""))) :=
  parseCSV_records_of_nodup "a,b\n1" (by decide) (by decide)

/-! ## Helper lemmas on the cache store -/

theorem storeLookup_insert {α : Type} (key : String) (e : Nat × α) :
    ∀ st : Store α, storeLookup (storeInsert st key e) key = some e := by
  intro st
  induction st with
  | nil => simp [storeInsert, storeLookup]
  | cons p rest ih =>
    cases p with
    | mk k0 e0 =>
      by_cases h : k0 = key
      · simp [storeInsert, storeLookup, h]
      · simp [storeInsert, storeLookup, h, ih]

/-- C10: at an age of exactly the TTL the two cache reads disagree — the
JSON-variant `LocalCache.get` (strict `<` on freshness) removes the entry
and reports a miss, while the CSV-variant `CacheManager.get` (strict `>`
on expiry) still returns the data — and at every other age the two reads
agree exactly. -/
theorem cache_expiry_boundary {α : Type} (d ts now : Nat) (key : String) (v : α)
    (st : Store α) (hlk : storeLookup st key = some (ts, v)) (hts : ts ≤ now) :
    ((now - ts = d) →
        localCacheGet d st now key = (none, storeRemove st key)
        ∧ cacheManagerGet d st now key = (some v, st))
    ∧ ((now - ts ≠ d) → localCacheGet d st now key = cacheManagerGet d st now key) := by
  constructor
  · intro heq
    have h1 : ¬now - ts < d := by omega
    have h2 : ¬now - ts > d := by omega
    simp [localCacheGet, cacheManagerGet, hlk, h1, h2]
  · intro hne
    by_cases hlt : now - ts < d
    · have h2 : ¬now - ts > d := by omega
      simp [localCacheGet, cacheManagerGet, hlk, hlt, h2]
    · have h2 : now - ts > d := by omega
      simp [localCacheGet, cacheManagerGet, hlk, hlt, h2]

/-- Witness for C10 at age exactly the TTL (`d = 5`, entry written at 0,
read at 5). -/
theorem cache_expiry_boundary_witness :
    localCacheGet 5 [("k", (0, "x"))] 5 "k" = (none, [])
    ∧ cacheManagerGet 5 [("k", (0, "x"))] 5 "k" = (some "x", [("k", (0, "x"))]) :=
  (cache_expiry_boundary 5 0 5 "k" "x" [("k", (0, "x"))] (by decide) (by decide)).1 rfl

/-- C2 (counterexample): an entry with value `false` written at time 0 and
read at time `TTL - 1` is returned unchanged by the cache read, yet the
claim's "no network request issued" fails: `CENIApiClient.fetch` tests the
cached value for JS truthiness, so the falsy value is ignored and three
network requests (with two backoff delays) are issued. -/
theorem cache_falsy_entry_cex :
    (localCacheGet API_CONFIG.cacheDuration
        (localCacheSet [] 0 "k" (JSValue.bool false)) 1799999 "k").1 =
      some (JSValue.bool false)
    ∧ (clientFetch API_CONFIG (fun _ => .netError "down")
        (localCacheSet [] 0 "k" (JSValue.bool false)) 1799999 "k").requests = [1, 2, 3]
    ∧ (clientFetch API_CONFIG (fun _ => .netError "down")
        (localCacheSet [] 0 "k" (JSValue.bool false)) 1799999 "k").delays = [1000, 2000] :=
  ⟨rfl, rfl, rfl⟩

/-- C2 (amended): for every cache key, an entry with a truthy value
written at time `T` and read at `T + TTL - 1` is returned unchanged with
no network request issued and no delay awaited; an entry read at
`T + TTL + 1` is treated as absent — the expired entry is removed by that
read — and the client issues a fresh network request starting at
attempt 1. -/
theorem cache_ttl_read (cfg : ApiConfig) (oracle : Nat → NetOutcome)
    (st0 : Store JSValue) (T : Nat) (key : String) (v : JSValue)
    (hv : truthy v = true) (hdur : 0 < cfg.cacheDuration) :
    clientFetch cfg oracle (localCacheSet st0 T key v) (T + cfg.cacheDuration - 1) key =
      ⟨.ok v, localCacheSet st0 T key v, [], []⟩
    ∧ localCacheGet cfg.cacheDuration (localCacheSet st0 T key v)
        (T + cfg.cacheDuration + 1) key =
        (none, storeRemove (localCacheSet st0 T key v) key)
    ∧ (clientFetch cfg oracle (localCacheSet st0 T key v)
        (T + cfg.cacheDuration + 1) key).requests.head? = some 1 := by
  have hlk : storeLookup (localCacheSet st0 T key v) key = some (T, v) :=
    storeLookup_insert key (T, v) st0
  refine ⟨?_, ?_, ?_⟩
  · have hfresh : T + cfg.cacheDuration - 1 - T < cfg.cacheDuration := by omega
    simp [clientFetch, fetchGo, localCacheGet, hlk, hfresh, truthyOpt, hv]
  · have hstale : ¬(T + cfg.cacheDuration + 1 - T < cfg.cacheDuration) := by omega
    simp [localCacheGet, hlk, hstale]
  · have hstale : ¬(T + cfg.cacheDuration + 1 - T < cfg.cacheDuration) := by omega
    rw [clientFetch, fetchGo]
    simp only [localCacheGet, hlk, hstale, if_neg, truthyOpt]
    cases har : attemptResult (oracle 1) with
    | ok data => simp [har, truthyOpt]
    | error e =>
      simp only [har]
      by_cases hret : 1 < cfg.retryAttempts
      · cases hfuel : cfg.retryAttempts with
        | zero => omega
        | succ k => by_cases h0 : 0 < k <;> simp [hret, truthyOpt, h0]
      · simp [hret, truthyOpt]

/-- Witness for C2 (amended): concrete truthy entry under the default
configuration. -/
theorem cache_ttl_read_witness :
    clientFetch API_CONFIG (fun _ => NetOutcome.netError "down")
        (localCacheSet [] 0 "k" (JSValue.str "data")) 1799999 "k" =
      ⟨.ok (JSValue.str "data"), localCacheSet [] 0 "k" (JSValue.str "data"), [], []⟩ :=
  (cache_ttl_read API_CONFIG (fun _ => NetOutcome.netError "down") [] 0 "k"
    (JSValue.str "data") rfl (by decide)).1

/-- C3: with a cache miss, three configured attempts and base delay `d`, a
call whose attempts 1 and 2 fail and whose attempt 3 succeeds returns the
attempt-3 value, and the backoff delays awaited are exactly `d` before
attempt 2 and `2 * d` before attempt 3 (`baseDelay * 2 ^ (attempt - 1)`
with the attempt counter starting at 1). -/
theorem fetch_success_on_third (dur d : Nat) (oracle : Nat → NetOutcome)
    (st : Store JSValue) (now : Nat) (key : String) (e1 e2 : FetchError) (v : JSValue)
    (hmiss : storeLookup st key = none)
    (h1 : attemptResult (oracle 1) = .error e1)
    (h2 : attemptResult (oracle 2) = .error e2)
    (h3 : attemptResult (oracle 3) = .ok v) :
    (clientFetch ⟨dur, 3, d⟩ oracle st now key).result = .ok v
    ∧ (clientFetch ⟨dur, 3, d⟩ oracle st now key).delays = [d, 2 * d] := by
  have hcalc : clientFetch ⟨dur, 3, d⟩ oracle st now key =
      ⟨.ok v, localCacheSet st (now + d * 2 ^ 0 + d * 2 ^ 1) key v, [1, 2, 3],
        [d * 2 ^ 0, d * 2 ^ 1]⟩ := by
    simp [clientFetch, fetchGo, localCacheGet, hmiss, truthyOpt, h1, h2, h3]
  rw [hcalc]
  refine ⟨rfl, ?_⟩
  simp
  omega

/-- Witness for C3: attempts 1 and 2 reject, attempt 3 delivers the data;
the configured base delay is 7. -/
theorem fetch_success_on_third_witness :
    ((clientFetch ⟨100, 3, 7⟩
        (fun i => if i == 3 then .response true 200 "OK" (.ok (.str "x"))
          else .netError "down") [] 0 "k").result = .ok (.str "x"))
    ∧ (clientFetch ⟨100, 3, 7⟩
        (fun i => if i == 3 then .response true 200 "OK" (.ok (.str "x"))
          else .netError "down") [] 0 "k").delays = [7, 2 * 7] :=
  fetch_success_on_third 100 7
    (fun i => if i == 3 then .response true 200 "OK" (.ok (.str "x"))
      else .netError "down")
    [] 0 "k" (.net "down") (.net "down") (.str "x") rfl rfl rfl rfl

/-- The retry loop under permanent failure: starting from any attempt not
past the configured maximum and with enough fuel, the settled result is
the final attempt's error. -/
theorem fetchGo_all_fail (cfg : ApiConfig) (oracle : Nat → NetOutcome) (key : String)
    (e : Nat → FetchError) (herr : ∀ i, attemptResult (oracle i) = .error (e i)) :
    ∀ (fuel : Nat) (st : Store JSValue) (now attempt : Nat),
      storeLookup st key = none → attempt ≤ cfg.retryAttempts →
      cfg.retryAttempts ≤ attempt + fuel →
      (fetchGo cfg oracle key fuel st now attempt).result =
        .error (e cfg.retryAttempts) := by
  intro fuel
  induction fuel with
  | zero =>
    intro st now attempt hmiss hle hinv
    have hatt : attempt = cfg.retryAttempts := by omega
    have hnret : ¬attempt < cfg.retryAttempts := by omega
    simp [fetchGo, localCacheGet, hmiss, truthyOpt, herr, hnret, hatt]
  | succ k ih =>
    intro st now attempt hmiss hle hinv
    by_cases hret : attempt < cfg.retryAttempts
    · rw [fetchGo]
      simp only [localCacheGet, hmiss, truthyOpt, herr, if_pos hret,
        Bool.false_eq_true, if_false]
      exact ih st (now + cfg.retryDelay * 2 ^ (attempt - 1)) (attempt + 1) hmiss
        (by omega) (by omega)
    · have hatt : attempt = cfg.retryAttempts := by omega
      simp [fetchGo, localCacheGet, hmiss, truthyOpt, herr, hret, hatt]

/-- C4: with a cache miss and at least one configured attempt, a call all
of whose attempts fail — each failure being a rejected request, a non-ok
HTTP status, or a payload carrying a truthy `error` field, as classified
by `attemptResult` — settles with the final attempt's error, and no other
value is returned. -/
theorem fetch_exhausted_rejects (cfg : ApiConfig) (oracle : Nat → NetOutcome)
    (e : Nat → FetchError) (st : Store JSValue) (now : Nat) (key : String)
    (hmiss : storeLookup st key = none) (hN : 1 ≤ cfg.retryAttempts)
    (herr : ∀ i, attemptResult (oracle i) = .error (e i)) :
    (clientFetch cfg oracle st now key).result = .error (e cfg.retryAttempts) :=
  fetchGo_all_fail cfg oracle key e herr cfg.retryAttempts st now 1 hmiss hN (by omega)

/-- Witness for C4: every attempt rejects with the same network error
under the default configuration. -/
theorem fetch_exhausted_rejects_witness :
    (clientFetch API_CONFIG (fun _ => NetOutcome.netError "down") [] 0 "k").result =
      .error (.net "down") :=
  fetch_exhausted_rejects API_CONFIG (fun _ => NetOutcome.netError "down")
    (fun _ => .net "down") [] 0 "k" rfl (by decide) (fun _ => rfl)

/-- C5 (counterexample): the CSV-variant client `fetchSheet`, called on a
cache miss with a failing HTTP response, performs exactly one request,
awaits no delay, and propagates the failure immediately: it does not
retry. -/
theorem fetchSheet_no_retry_cex :
    fetchSheet [] 0 "gid" (.response false 500 "Server Error" "") =
      ⟨.error (.http 500 "Server Error"), [], 1, []⟩ :=
  rfl

/-- C5 (amended): on a cache miss with failing requests, the JSON-variant
client retries up to the configured 3 attempts with increasing delays
(1000 ms then 2000 ms under the default configuration) before the failure
propagates, while the CSV-variant client performs exactly one request and
propagates the failure immediately with no retry and no delay. -/
theorem retry_policy_by_variant :
    (∀ (oracle : Nat → NetOutcome) (st : Store JSValue) (now : Nat) (key : String)
        (e : Nat → FetchError),
        storeLookup st key = none → (∀ i, attemptResult (oracle i) = .error (e i)) →
        (clientFetch API_CONFIG oracle st now key).result = .error (e 3)
        ∧ (clientFetch API_CONFIG oracle st now key).delays = [1000, 2000]
        ∧ (clientFetch API_CONFIG oracle st now key).requests = [1, 2, 3])
    ∧ (∀ (st : Store (List CsvRecord)) (now : Nat) (gid m : String),
        storeLookup st gid = none →
        fetchSheet st now gid (.netError m) = ⟨.error (.net m), st, 1, []⟩)
    ∧ (∀ (st : Store (List CsvRecord)) (now : Nat) (gid : String) (status : Nat)
        (statusText body : String),
        storeLookup st gid = none →
        fetchSheet st now gid (.response false status statusText body) =
          ⟨.error (.http status statusText), st, 1, []⟩) := by
  refine ⟨?_, ?_, ?_⟩
  · intro oracle st now key e hmiss herr
    have hcalc : clientFetch API_CONFIG oracle st now key =
        ⟨.error (e 3), st, [1, 2, 3], [1000 * 2 ^ 0, 1000 * 2 ^ 1]⟩ := by
      simp [clientFetch, API_CONFIG, fetchGo, localCacheGet, hmiss, truthyOpt, herr]
    rw [hcalc]
    refine ⟨rfl, by norm_num, rfl⟩
  · intro st now gid m hmiss
    simp [fetchSheet, cacheManagerGet, hmiss]
  · intro st now gid status statusText body hmiss
    simp [fetchSheet, cacheManagerGet, hmiss]

/-- Witness for C5 (amended): one concrete consequence from each variant. -/
theorem retry_policy_by_variant_witness :
    (clientFetch API_CONFIG (fun _ => NetOutcome.netError "down") [] 0 "k").delays =
      [1000, 2000]
    ∧ fetchSheet [] 0 "g" (.netError "down") = ⟨.error (.net "down"), [], 1, []⟩ :=
  ⟨(retry_policy_by_variant.1 (fun _ => NetOutcome.netError "down") [] 0 "k"
      (fun _ => .net "down") rfl (fun _ => rfl)).2.1,
    retry_policy_by_variant.2.1 [] 0 "g" "down" rfl⟩
